import Mathlib

/-!
Verification of the acquisition-and-curation pipeline of the game-analyzer
backend (`src/backend/server.py`): quality filtering, diversity/recency
selection, windowed fetching, comment sampling, result cache and throttle.

Each Python function is shallowly embedded as an executable Lean definition.
Machine floats appear in the source only as the ranking score (used purely as
a sort key, abstracted below as a `Post → ℚ` parameter) and as wall-clock
timestamps (modelled as `ℚ`, exact for the arithmetic the code performs, or as
`Int` seconds where fractional time is irrelevant to the property at hand).
-/

namespace GameAnalyzer

/-! ### Constants (`server.py`, lines 44-54) -/

def CACHE_TTL_SECONDS : ℚ := 600

def THROTTLE_SECONDS : ℚ := 30

def MAX_COMMENTS_PER_POST : Nat := 10

def COMMENT_BODY_TRUNCATE : Nat := 400

def MAX_POSTS_FINAL : Nat := 100

def MAX_POSTS_PER_AUTHOR : Nat := 3

def MAX_NO_COMMENT_POSTS : Nat := 20

def MIN_RECENT_POSTS : Nat := 20

/-! ### Data model

A post as constructed by `fetch_arctic_shift_posts` (server.py lines 317-326):
every field is present, with `""`/`0` defaults already applied. `created_utc`
is modelled in integer seconds. -/

structure Post where
  id : String
  title : String
  selftext : String
  score : Int
  created_utc : Int
  num_comments : Int
  author : String
deriving DecidableEq, Repr

/-! ### QualityFilter (`apply_quality_filter`, server.py lines 408-431) -/

/-- The conjunctive low-signal condition computed inside the loop of
`apply_quality_filter` (server.py lines 421-426), including the redundant
`len(selftext) == 0` disjunct of the source. -/
def is_low_quality (post : Post) : Bool :=
  decide (post.num_comments = 0) &&
  decide (post.score ≤ 1) &&
  (decide (post.selftext.length = 0) || decide (post.selftext.length < 80)) &&
  decide (post.title.length < 25)

/-- `apply_quality_filter` (server.py lines 408-431): keep exactly the posts
that are not low-quality, preserving order. -/
def apply_quality_filter : List Post → List Post
  | [] => []
  | post :: rest =>
    if is_low_quality post then apply_quality_filter rest
    else post :: apply_quality_filter rest

/-! ### DiversitySelector (`apply_diversity_and_recency`, server.py 452-531)

The Python dict `author_count` is modelled as an insertion-ordered association
list with the same `get(k, 0)` / `d[k] = v` operations. -/

def dict_get (d : List (String × Nat)) (k : String) : Nat :=
  match d with
  | [] => 0
  | (k', v) :: rest => if k' = k then v else dict_get rest k

def dict_set (d : List (String × Nat)) (k : String) (v : Nat) : List (String × Nat) :=
  match d with
  | [] => [(k, v)]
  | (k', v') :: rest => if k' = k then (k, v) :: rest else (k', v') :: dict_set rest k v

/-- Loop state of the first (greedy) pass of `apply_diversity_and_recency`
(server.py lines 465-476). -/
structure Pass1State where
  selected : List Post
  author_count : List (String × Nat)
  no_comment_count : Nat
  recent_in_selection : Nat
  deferred_recent : List Post
deriving DecidableEq, Repr

def pass1_init : Pass1State :=
  { selected := [], author_count := [], no_comment_count := 0,
    recent_in_selection := 0, deferred_recent := [] }

/-- First pass of `apply_diversity_and_recency` (server.py lines 478-505):
greedy admission in rank order under the per-author and zero-comment caps;
recent posts rejected by a cap are appended to `deferred_recent`; the loop
breaks as soon as `selected` holds `MAX_POSTS_FINAL` posts. -/
def pass1 (three_days_ago : Int) : List Post → Pass1State → Pass1State
  | [], st => st
  | post :: rest, st =>
    if st.selected.length ≥ MAX_POSTS_FINAL then st
    else if dict_get st.author_count post.author ≥ MAX_POSTS_PER_AUTHOR then
      pass1 three_days_ago rest
        { st with deferred_recent :=
            if post.created_utc > three_days_ago then st.deferred_recent ++ [post]
            else st.deferred_recent }
    else if post.num_comments = 0 ∧ st.no_comment_count ≥ MAX_NO_COMMENT_POSTS then
      pass1 three_days_ago rest
        { st with deferred_recent :=
            if post.created_utc > three_days_ago then st.deferred_recent ++ [post]
            else st.deferred_recent }
    else
      pass1 three_days_ago rest
        { selected := st.selected ++ [post],
          author_count :=
            dict_set st.author_count post.author
              (dict_get st.author_count post.author + 1),
          no_comment_count :=
            if post.num_comments = 0 then st.no_comment_count + 1
            else st.no_comment_count,
          recent_in_selection :=
            if post.created_utc > three_days_ago then st.recent_in_selection + 1
            else st.recent_in_selection,
          deferred_recent := st.deferred_recent }

/-- The inner replacement loop of the second pass (server.py lines 517-522):
scan `selected` from the end for the first post with `created_utc` at or
before the three-day boundary and replace it; `none` when no such post
exists. -/
def replaceLastNonrecent (three_days_ago : Int) (post : Post) :
    List Post → Option (List Post)
  | [] => none
  | x :: xs =>
    match replaceLastNonrecent three_days_ago post xs with
    | some xs' => some (x :: xs')
    | none => if x.created_utc ≤ three_days_ago then some (post :: xs) else none

/-- Second pass of `apply_diversity_and_recency` (server.py lines 512-525):
walk the deferred recent posts (already sorted most-recent-first), stopping
once the recency quota is met; append while under the global cap, otherwise
replace the lowest-ranked non-recent selected post. -/
def pass2 (three_days_ago : Int) :
    List Post → List Post → Nat → List Post × Nat
  | [], selected, recent => (selected, recent)
  | post :: rest, selected, recent =>
    if recent ≥ MIN_RECENT_POSTS then (selected, recent)
    else if selected.length ≥ MAX_POSTS_FINAL then
      match replaceLastNonrecent three_days_ago post selected with
      | some selected' => pass2 three_days_ago rest selected' (recent + 1)
      | none => pass2 three_days_ago rest selected recent
    else pass2 three_days_ago rest (selected ++ [post]) (recent + 1)

/-- `apply_diversity_and_recency` (server.py lines 452-531). The float rank
`calculate_post_rank` is used by the source only as a sort key and is
abstracted as the parameter `rank`; `now` is the `time.time()` snapshot.
The sorts are Python's stable `sorted(..., reverse=True)`, i.e. a stable
merge sort by descending key. -/
def apply_diversity_and_recency (rank : Post → ℚ) (now : Int) (posts : List Post) :
    List Post :=
  let posts_sorted := posts.mergeSort fun a b => decide (rank b ≤ rank a)
  let three_days_ago := now - 3 * 24 * 60 * 60
  let st := pass1 three_days_ago posts_sorted pass1_init
  let result :=
    if st.recent_in_selection < MIN_RECENT_POSTS ∧ st.deferred_recent ≠ [] then
      (pass2 three_days_ago
        (st.deferred_recent.mergeSort fun a b => decide (b.created_utc ≤ a.created_utc))
        st.selected st.recent_in_selection).1
    else st.selected
  result.take MAX_POSTS_FINAL

/-- The recency test used throughout `apply_diversity_and_recency`
(server.py line 485): strictly newer than the three-day boundary. -/
def recentP (three_days_ago : Int) (p : Post) : Bool :=
  decide (p.created_utc > three_days_ago)

/-- Bookkeeping invariant of the greedy pass: the author dictionary and the
zero-comment counter are exact occurrence counts over `selected`, and both
caps hold. -/
def DictInv (st : Pass1State) : Prop :=
  (∀ a, dict_get st.author_count a =
      st.selected.countP fun p => decide (p.author = a)) ∧
  st.no_comment_count = (st.selected.countP fun p => decide (p.num_comments = 0)) ∧
  (∀ a, dict_get st.author_count a ≤ MAX_POSTS_PER_AUTHOR) ∧
  st.no_comment_count ≤ MAX_NO_COMMENT_POSTS

/-- Recency invariant of the greedy pass: the recent counter is the exact
count of recent posts in `selected`, the selection stays within the global
cap, and every deferred post is recent. -/
def RecInv (three_days_ago : Int) (st : Pass1State) : Prop :=
  st.recent_in_selection = st.selected.countP (recentP three_days_ago) ∧
  st.selected.length ≤ MAX_POSTS_FINAL ∧
  ∀ p ∈ st.deferred_recent, recentP three_days_ago p = true

/-! ### CommentSampler (`select_best_comments`, server.py lines 534-563) -/

/-- A comment as constructed by `fetch_arctic_shift_comments` (server.py
lines 387-393). -/
structure Comment where
  id : String
  body : String
  score : Int
  created_utc : Int
  author : String
deriving DecidableEq, Repr

/-- The public comment shape returned by `select_best_comments`
(server.py lines 557-561). -/
structure SelectedComment where
  id : String
  body : String
  score : Int
deriving DecidableEq, Repr

/-- The descending lexicographic order of the sort on server.py lines 540-544:
`a` may precede `b` when the key `(score, len(body), created_utc)` of `b` is
lexicographically at most that of `a`. -/
def comment_key_le (a b : Comment) : Bool :=
  decide (b.score < a.score) ||
  (decide (b.score = a.score) &&
    (decide (b.body.length < a.body.length) ||
      (decide (b.body.length = a.body.length) && decide (b.created_utc ≤ a.created_utc))))

/-- Character class `[A-Za-z0-9_-]` of the username regex
(server.py line 555). -/
def is_username_char (c : Char) : Bool :=
  c.isAlpha || c.isDigit || c = '_' || c = '-'

/-- One match attempt of the regex `/?u/[A-Za-z0-9_-]+` at the head of the
character list: returns the remainder after a leftmost greedy match, or `none`
when the regex does not match at this position. -/
def match_user_mention (l : List Char) : Option (List Char) :=
  match l with
  | '/' :: 'u' :: '/' :: c :: cs =>
    if is_username_char c then some (cs.dropWhile is_username_char) else none
  | 'u' :: '/' :: c :: cs =>
    if is_username_char c then some (cs.dropWhile is_username_char) else none
  | _ => none

/-- `re.sub(r'/?u/[A-Za-z0-9_-]+', '[user]', body)` (server.py line 555):
scan left to right, replacing each non-overlapping leftmost match by the
placeholder. The fuel argument (instantiated with the input length, an upper
bound on the number of scan steps) keeps the recursion structural. -/
def redact_aux : Nat → List Char → List Char
  | 0, l => l
  | _, [] => []
  | fuel + 1, c :: cs =>
    match match_user_mention (c :: cs) with
    | some rest => "[user]".data ++ redact_aux fuel rest
    | none => c :: redact_aux fuel cs

def redact_usernames (s : String) : String :=
  String.mk (redact_aux s.data.length s.data)

/-- Truncation of a selected comment body (server.py lines 550-551):
bodies longer than `COMMENT_BODY_TRUNCATE` are cut there and get an
ellipsis marker. -/
def truncate_comment_body (b : String) : String :=
  if b.length > COMMENT_BODY_TRUNCATE then
    String.mk (b.data.take COMMENT_BODY_TRUNCATE) ++ "..."
  else b

/-- `select_best_comments` (server.py lines 534-563): stable sort by
descending `(score, body length, created_utc)`, keep the first `max_count`,
truncate each body and redact user mentions, projecting to the public
shape. -/
def select_best_comments (comments : List Comment)
    (max_count : Nat := MAX_COMMENTS_PER_POST) : List SelectedComment :=
  let sorted := comments.mergeSort comment_key_le
  (sorted.take max_count).map fun c =>
    { id := c.id,
      body := redact_usernames (truncate_comment_body c.body),
      score := c.score }

/-! ### WindowedFetcher (window loop of `fetch_reddit_posts`,
server.py lines 597-642)

A per-window upstream outcome abstracts the value of
`await fetch_arctic_shift_posts(normalized, after, before)`: either an error
with its optional HTTP status, or a raw post batch. -/

inductive WindowOutcome where
  | failure (status : Option Int) (msg : String)
  | success (raw_posts : List Post)
deriving DecidableEq, Repr

def is_success_outcome : WindowOutcome → Bool
  | .success _ => true
  | .failure _ _ => false

/-- The status test `status in [429, 502, 503, 504]` (server.py line 618);
a `None` status is not in the list. -/
def is_abort_status : Option Int → Bool
  | some s => s == 429 || s == 502 || s == 503 || s == 504
  | none => false

/-- The window sequence tried in order (server.py lines 598-602). -/
def reddit_windows : List (String × String) :=
  [("8d", "36h"), ("8d", "12h"), ("8d", "0h")]

def window_str (w : String × String) : String := w.1 ++ ".." ++ w.2

/-- Result of the window loop: the kept filtered batch and its window label,
a terminal error when the loop aborted on a rate-limit/server status, and the
windows actually requested. -/
structure WindowLoopResult where
  posts : List Post
  used_window : String
  aborted_error : Option String
  attempted : List (String × String)
deriving DecidableEq, Repr

/-- The window loop of `fetch_reddit_posts` (server.py lines 607-636):
abort on 429/502/503/504, skip other failed windows, stop at the first window
whose quality-filtered batch reaches 150, else keep the strictly largest
filtered batch seen so far. -/
def window_loop (f : String × String → WindowOutcome) :
    List (String × String) → List Post → String → List (String × String) →
    WindowLoopResult
  | [], best, best_window, attempted =>
    ⟨best, best_window, none, attempted⟩
  | w :: rest, best, best_window, attempted =>
    match f w with
    | .failure status msg =>
      if is_abort_status status then ⟨[], "", some msg, attempted ++ [w]⟩
      else window_loop f rest best best_window (attempted ++ [w])
    | .success raw =>
      let filtered := apply_quality_filter raw
      if filtered.length ≥ 150 then
        ⟨filtered, window_str w, none, attempted ++ [w]⟩
      else if filtered.length > best.length then
        window_loop f rest filtered (window_str w) (attempted ++ [w])
      else
        window_loop f rest best best_window (attempted ++ [w])

/-- The full windowed search of one `fetch_reddit_posts` call, starting from
an empty best candidate. -/
def fetch_windows (f : String × String → WindowOutcome) : WindowLoopResult :=
  window_loop f reddit_windows [] "" []

/-- Quality-filtered batch a window would contribute (empty for a failed
window). -/
def window_filtered (f : String × String → WindowOutcome) (w : String × String) :
    List Post :=
  match f w with
  | .success raw => apply_quality_filter raw
  | .failure _ _ => []

def window_filtered_count (f : String × String → WindowOutcome)
    (w : String × String) : Nat :=
  (window_filtered f w).length

/-! ### ThrottleGuard (`check_throttle` / `update_scan_time`,
server.py lines 869-884)

`last_scan_times` is modelled as a map from the lowercased normalized subject
key to the recorded `time.time()` value; both functions derive the key from
the raw subject by the same normalization, so two calls for the same subject
share the key. Timestamps are `ℚ`; `int()` on the positive remainder is the
floor. -/

def check_throttle (last_scan_times : String → Option ℚ) (now : ℚ)
    (key : String) : Bool × Int :=
  match last_scan_times key with
  | some t =>
    let elapsed := now - t
    if elapsed < THROTTLE_SECONDS then (true, ⌊THROTTLE_SECONDS - elapsed⌋)
    else (false, 0)
  | none => (false, 0)

def update_scan_time (last_scan_times : String → Option ℚ) (now : ℚ)
    (key : String) : String → Option ℚ :=
  fun k => if k = key then some now else last_scan_times k

/-! ### ResultCache (read: server.py lines 583-595, write: lines 680-687) -/

/-- A per-post comment bundle as cached and returned
(server.py lines 667-671). -/
structure CommentBundle where
  post_id : String
  post_title : String
  comments : List SelectedComment
deriving DecidableEq, Repr

/-- One `reddit_cache` entry (server.py lines 681-687). -/
structure CacheEntry where
  posts : List Post
  comments : List CommentBundle
  timestamp : ℚ
deriving DecidableEq

/-- The cache read at the top of `fetch_reddit_posts` (server.py lines
587-595): serve the entry only while its age is strictly below the TTL; the
`Bool` is the `used_cache` flag of the returned tuple. -/
def reddit_cache_check (cache : String → Option CacheEntry) (now : ℚ)
    (key : String) : Option (List Post × List CommentBundle × Bool) :=
  match cache key with
  | some entry =>
    if now - entry.timestamp < CACHE_TTL_SECONDS then
      some (entry.posts, entry.comments, true)
    else none
  | none => none

/-- The cache write at the end of a successful run (server.py lines
680-687). -/
def reddit_cache_store (cache : String → Option CacheEntry) (key : String)
    (posts : List Post) (comments : List CommentBundle) (now : ℚ) :
    String → Option CacheEntry :=
  fun k => if k = key then some ⟨posts, comments, now⟩ else cache k

/-! ### Concrete instances used in counterexamples and witnesses -/

/-- A recent post by a single author, used to exercise the second-pass
backfill. -/
def cex1_post (i : Nat) : Post :=
  { id := "p" ++ toString i, title := "", selftext := "", score := 0,
    created_utc := 1000000, num_comments := 1, author := "alice" }

def cex1_posts : List Post := [cex1_post 1, cex1_post 2, cex1_post 3, cex1_post 4]

/-- A constant rank: the stable sort leaves `cex1_posts` in order. -/
def cex1_rank : Post → ℚ := fun _ => 0

/-- An old high-ranked post (rank 1 under `cex2_rank`). -/
def cex2_old (i : Nat) : Post :=
  { id := "o" ++ toString i, title := "", selftext := "", score := 0,
    created_utc := 0, num_comments := 1, author := "a" ++ toString i }

/-- A recent low-ranked post (rank 0 under `cex2_rank`). -/
def cex2_recent (i : Nat) : Post :=
  { id := "r" ++ toString i, title := "", selftext := "", score := 0,
    created_utc := 1000000, num_comments := 1, author := "b" ++ toString i }

def cex2_posts : List Post :=
  ((List.range 100).map cex2_old) ++ ((List.range 20).map cex2_recent)

def cex2_rank (p : Post) : ℚ := if p.created_utc = 0 then 1 else 0

/-- Witness input for the amended recency claim: 20 recent posts by distinct
authors. -/
def wit2_posts : List Post := (List.range 20).map cex2_recent

/-- A comment whose body is 58 copies of `u/a.` (232 characters): every
`u/a` is a user mention that redaction expands to `[user]`. -/
def cex8_comment : Comment :=
  { id := "c1", body := String.join (List.replicate 58 "u/a."), score := 5,
    created_utc := 0, author := "bob" }

/-- A plain comment used as a witness input. -/
def wit8_comment : Comment :=
  { id := "c1", body := "", score := 5, created_utc := 0, author := "bob" }

/-- Upstream behaviour where the first (narrowest) window is rejected with a
404 and the wider windows succeed with empty batches. -/
def failing_first_window (w : String × String) : WindowOutcome :=
  if w = ("8d", "36h") then
    .failure (some 404) "Subreddit not found. Check spelling."
  else .success []

/-! ## Theorems -/

/-! ### C3 — QualityFilter characterization -/

/-- The low-quality test equals the spec's conjunction: the redundant
`len(selftext) == 0` disjunct collapses into `len(selftext) < 80`. -/
theorem is_low_quality_eq (p : Post) :
    is_low_quality p =
      decide (p.num_comments = 0 ∧ p.score ≤ 1 ∧
        p.selftext.length < 80 ∧ p.title.length < 25) := by
  rcases Nat.eq_zero_or_pos p.selftext.length with h0 | h0
  · simp [is_low_quality, h0, and_assoc, Bool.and_assoc]
  · have h0' : p.selftext.length ≠ 0 := Nat.pos_iff_ne_zero.mp h0
    simp [is_low_quality, h0', and_assoc, Bool.and_assoc]

/-- C3: `apply_quality_filter` drops a post exactly when all four low-signal
conditions hold (zero replies, score ≤ 1, body shorter than 80 characters,
title shorter than 25 characters); it is the pointwise filter of that
predicate, so keeping/dropping depends on the single item only. -/
theorem C3_quality_filter (posts : List Post) :
    apply_quality_filter posts =
      posts.filter fun p =>
        !(decide (p.num_comments = 0 ∧ p.score ≤ 1 ∧
            p.selftext.length < 80 ∧ p.title.length < 25)) := by
  induction posts with
  | nil => rfl
  | cons p rest ih =>
    rw [apply_quality_filter, List.filter_cons, ← is_low_quality_eq, ih]
    cases hlq : is_low_quality p <;> simp [hlq]

/-! ### C5 — global cap of the DiversitySelector -/

/-- C5: the selector's output never exceeds the global cap of 100 posts,
whatever the ranking, clock and input; in particular the second pass cannot
grow the selection past the cap. -/
theorem C5_global_cap (rank : Post → ℚ) (now : Int) (posts : List Post) :
    (apply_diversity_and_recency rank now posts).length ≤ MAX_POSTS_FINAL := by
  simp only [apply_diversity_and_recency]
  exact List.length_take_le _ _

/-! ### C7 — ResultCache write/read semantics -/

/-- C7: a cache write followed by a read of the same key serves the stored
posts and comment bundles with the `used_cache` flag set while the age is
strictly below the 600-second TTL, and is a miss once the age reaches the
TTL. -/
theorem C7_result_cache (cache : String → Option CacheEntry) (key : String)
    (posts : List Post) (comments : List CommentBundle) (t0 t1 : ℚ) :
    (t1 - t0 < CACHE_TTL_SECONDS →
      reddit_cache_check (reddit_cache_store cache key posts comments t0) t1 key =
        some (posts, comments, true)) ∧
    (CACHE_TTL_SECONDS ≤ t1 - t0 →
      reddit_cache_check (reddit_cache_store cache key posts comments t0) t1 key =
        none) := by
  constructor <;> intro h
  · simp [reddit_cache_check, reddit_cache_store, h]
  · simp [reddit_cache_check, reddit_cache_store, not_lt.mpr h]

/-- Witness: a write at time 0 read back at time 1 for the key `"game"`. -/
theorem C7_result_cache_witness :
    reddit_cache_check (reddit_cache_store (fun _ => none) "game" [] [] 0) 1 "game" =
      some ([], [], true) :=
  (C7_result_cache (fun _ => none) "game" [] [] 0 1).1
    (by norm_num [CACHE_TTL_SECONDS])

/-! ### C6 — ThrottleGuard -/

/-- C6 (amended): within 30 seconds of the recorded attempt the check rejects
and reports `⌊30 − elapsed⌋` remaining seconds — a nonnegative value that is
strictly positive whenever at least one full second of the interval remains,
but 0 when less than one second remains; from 30 seconds on the check
accepts. -/
theorem C6_throttle_amended (last_scan_times : String → Option ℚ)
    (t1 t2 : ℚ) (key : String) :
    (t2 - t1 < THROTTLE_SECONDS →
      check_throttle (update_scan_time last_scan_times t1 key) t2 key =
        (true, ⌊THROTTLE_SECONDS - (t2 - t1)⌋) ∧
      0 ≤ ⌊THROTTLE_SECONDS - (t2 - t1)⌋ ∧
      (t2 - t1 ≤ THROTTLE_SECONDS - 1 → 1 ≤ ⌊THROTTLE_SECONDS - (t2 - t1)⌋)) ∧
    (THROTTLE_SECONDS ≤ t2 - t1 →
      check_throttle (update_scan_time last_scan_times t1 key) t2 key =
        (false, 0)) := by
  constructor <;> intro h
  · refine ⟨by simp [check_throttle, update_scan_time, h], ?_, ?_⟩
    · rw [Int.floor_nonneg]
      linarith
    · intro h29
      rw [show (1 : ℤ) ≤ ⌊THROTTLE_SECONDS - (t2 - t1)⌋ ↔
            ((1 : ℤ) : ℚ) ≤ THROTTLE_SECONDS - (t2 - t1) from Int.le_floor]
      push_cast
      linarith
  · simp [check_throttle, update_scan_time, not_lt.mpr h]

/-- Witness: attempts at times 0 and 10 for the key `"game"`: rejected with a
strictly positive remaining value. -/
theorem C6_throttle_amended_witness :
    (check_throttle (update_scan_time (fun _ => none) 0 "game") 10 "game").1 = true ∧
    1 ≤ (check_throttle (update_scan_time (fun _ => none) 0 "game") 10 "game").2 := by
  have h := (C6_throttle_amended (fun _ => none) 0 10 "game").1
    (by norm_num [THROTTLE_SECONDS])
  exact ⟨by rw [h.1], by rw [h.1]; exact h.2.2 (by norm_num [THROTTLE_SECONDS])⟩

/-- C6 counterexample: with the first attempt recorded at time 0, a second
check 29.5 seconds later is rejected but reports 0 remaining seconds — not a
strictly positive value as the claim states. -/
theorem C6_counterexample :
    check_throttle (update_scan_time (fun _ => none) 0 "game") (59 / 2) "game" =
      (true, 0) ∧ ¬ (0 < (0 : ℤ)) := by
  refine ⟨?_, by decide⟩
  have hlt : (59 / 2 : ℚ) < THROTTLE_SECONDS := by norm_num [THROTTLE_SECONDS]
  have hfloor : ⌊THROTTLE_SECONDS - (59 / 2 : ℚ)⌋ = 0 := by
    rw [Int.floor_eq_iff]; norm_num [THROTTLE_SECONDS]
  simp [check_throttle, update_scan_time, hlt, hfloor]

/-! ### C4 / C9 — the windowed fetcher -/

/-- If every window before `w` succeeds below the acceptance threshold, `w`
succeeds at or above it, and the best candidate so far is below it, the loop
stops at `w` with `w`'s filtered batch, attempting no later window. -/
theorem window_loop_early_stop (f : String × String → WindowOutcome) :
    ∀ (pre : List (String × String)) (w : String × String)
      (post : List (String × String)) (best : List Post) (bw : String)
      (att : List (String × String)),
      (∀ v ∈ pre, is_success_outcome (f v) = true ∧ window_filtered_count f v < 150) →
      is_success_outcome (f w) = true → 150 ≤ window_filtered_count f w →
      best.length < 150 →
      window_loop f (pre ++ w :: post) best bw att =
        ⟨window_filtered f w, window_str w, none, att ++ (pre ++ [w])⟩
  | [], w, post, best, bw, att, _, hw, hcnt, hbest => by
    cases hfw : f w with
    | failure s m => rw [hfw] at hw; simp [is_success_outcome] at hw
    | success raw =>
      have hfil : window_filtered f w = apply_quality_filter raw := by
        simp [window_filtered, hfw]
      have : 150 ≤ (apply_quality_filter raw).length := by
        simpa [window_filtered_count, hfil] using hcnt
      simp [window_loop, hfw, this, hfil]
  | v :: pre', w, post, best, bw, att, hpre, hw, hcnt, hbest => by
    obtain ⟨hv, hvcnt⟩ := hpre v (by simp)
    cases hfv : f v with
    | failure s m => rw [hfv] at hv; simp [is_success_outcome] at hv
    | success raw =>
      have hraw : (apply_quality_filter raw).length < 150 := by
        simpa [window_filtered_count, window_filtered, hfv] using hvcnt
      have ih := fun b' bw' hb' =>
        window_loop_early_stop f pre' w post b' bw' (att ++ [v])
          (fun u hu => hpre u (by simp [hu])) hw hcnt hb'
      rw [List.cons_append, window_loop, hfv]
      simp only
      by_cases hgt : (apply_quality_filter raw).length > best.length
      · rw [if_neg (by omega), if_pos hgt, ih _ _ hraw]
        simp [List.append_assoc]
      · rw [if_neg (by omega), if_neg hgt, ih _ _ hbest]
        simp [List.append_assoc]

/-- If every window succeeds below the acceptance threshold, the loop visits
all windows and ends with either the incoming best candidate (still maximal)
or the filtered batch of a visited window that is maximal among all of them. -/
theorem window_loop_all_below (f : String × String → WindowOutcome) :
    ∀ (ws : List (String × String)) (best : List Post) (bw : String)
      (att : List (String × String)),
      (∀ v ∈ ws, is_success_outcome (f v) = true ∧ window_filtered_count f v < 150) →
      (window_loop f ws best bw att).attempted = att ++ ws ∧
      (window_loop f ws best bw att).aborted_error = none ∧
      (((window_loop f ws best bw att).posts = best ∧
          ∀ v ∈ ws, window_filtered_count f v ≤ best.length) ∨
        (∃ v ∈ ws, (window_loop f ws best bw att).posts = window_filtered f v ∧
          best.length ≤ window_filtered_count f v ∧
          ∀ u ∈ ws, window_filtered_count f u ≤ window_filtered_count f v))
  | [], best, bw, att, _ => by
    refine ⟨by simp [window_loop], by simp [window_loop], Or.inl ⟨rfl, by simp⟩⟩
  | v :: rest, best, bw, att, hws => by
    obtain ⟨hv, hvcnt⟩ := hws v (by simp)
    cases hfv : f v with
    | failure s m => rw [hfv] at hv; simp [is_success_outcome] at hv
    | success raw =>
      have hfil : window_filtered f v = apply_quality_filter raw := by
        simp [window_filtered, hfv]
      have hcv : window_filtered_count f v = (apply_quality_filter raw).length := by
        simp [window_filtered_count, hfil]
      have hraw : (apply_quality_filter raw).length < 150 := by omega
      rw [window_loop, hfv]
      simp only
      by_cases hgt : (apply_quality_filter raw).length > best.length
      · rw [if_neg (by omega), if_pos hgt]
        obtain ⟨ha, he, hp⟩ := window_loop_all_below f rest (apply_quality_filter raw)
          (window_str v) (att ++ [v]) (fun u hu => hws u (by simp [hu]))
        refine ⟨by simp [ha], he, ?_⟩
        rcases hp with ⟨hbest', hmax⟩ | ⟨u, hu, hposts, hle, hmax⟩
        · refine Or.inr ⟨v, by simp, by rw [hbest', hfil], by omega, ?_⟩
          intro u hu
          rcases List.mem_cons.mp hu with rfl | hu
          · exact le_refl _
          · have := hmax u hu
            omega
        · refine Or.inr ⟨u, by simp [hu], hposts, by omega, ?_⟩
          intro u' hu'
          rcases List.mem_cons.mp hu' with rfl | hu'
          · omega
          · exact hmax u' hu'
      · rw [if_neg (by omega), if_neg hgt]
        obtain ⟨ha, he, hp⟩ := window_loop_all_below f rest best bw (att ++ [v])
          (fun u hu => hws u (by simp [hu]))
        refine ⟨by simp [ha], he, ?_⟩
        rcases hp with ⟨hbest', hmax⟩ | ⟨u, hu, hposts, hle, hmax⟩
        · refine Or.inl ⟨hbest', ?_⟩
          intro u hu
          rcases List.mem_cons.mp hu with rfl | hu
          · omega
          · exact hmax u hu
        · refine Or.inr ⟨u, by simp [hu], hposts, hle, ?_⟩
          intro u' hu'
          rcases List.mem_cons.mp hu' with rfl | hu'
          · omega
          · exact hmax u' hu'

/-- C4: when every window request succeeds, (i) if a window's quality-filtered
count reaches 150 and every earlier window stayed below 150, the fetcher
returns exactly that window's filtered batch and requests no further window;
(ii) if every window stays below 150, all windows are requested and the
result is the filtered batch of some window with the maximum filtered count
over the whole sequence. -/
theorem C4_windowed_fetcher (f : String × String → WindowOutcome)
    (hsucc : ∀ w ∈ reddit_windows, is_success_outcome (f w) = true) :
    (∀ pre w post, reddit_windows = pre ++ w :: post →
      (∀ v ∈ pre, window_filtered_count f v < 150) →
      150 ≤ window_filtered_count f w →
      fetch_windows f = ⟨window_filtered f w, window_str w, none, pre ++ [w]⟩) ∧
    ((∀ w ∈ reddit_windows, window_filtered_count f w < 150) →
      (fetch_windows f).attempted = reddit_windows ∧
      ∃ w ∈ reddit_windows, (fetch_windows f).posts = window_filtered f w ∧
        ∀ v ∈ reddit_windows, window_filtered_count f v ≤ window_filtered_count f w) := by
  constructor
  · intro pre w post heq hpre hcnt
    have hw : w ∈ reddit_windows := by rw [heq]; simp
    rw [fetch_windows, heq]
    rw [window_loop_early_stop f pre w post [] "" []
      (fun v hv => ⟨hsucc v (by rw [heq]; simp [hv]), hpre v hv⟩)
      (hsucc w hw) hcnt (by simp)]
    simp
  · intro hall
    obtain ⟨ha, _, hp⟩ := window_loop_all_below f reddit_windows [] "" []
      (fun v hv => ⟨hsucc v hv, hall v hv⟩)
    rw [show fetch_windows f = window_loop f reddit_windows [] "" [] from rfl]
    refine ⟨by simpa using ha, ?_⟩
    rcases hp with ⟨hposts, hmax⟩ | ⟨u, hu, hposts, _, hmax⟩
    · refine ⟨("8d", "36h"), by simp [reddit_windows], ?_, ?_⟩
      · have h0 : window_filtered_count f ("8d", "36h") = 0 :=
          Nat.le_zero.mp (by simpa using hmax ("8d", "36h") (by simp [reddit_windows]))
        rw [hposts]
        exact (List.length_eq_zero.mp h0).symm
      · intro v hv
        have h1 := hmax v hv
        have h0 : window_filtered_count f ("8d", "36h") = 0 :=
          Nat.le_zero.mp (by simpa using hmax ("8d", "36h") (by simp [reddit_windows]))
        simp only [List.length_nil, Nat.le_zero] at h1
        omega
    · exact ⟨u, hu, hposts, hmax⟩

/-- Witness for C4: all three windows succeed with empty batches (all below
threshold), so all windows are attempted and the result is a maximal filtered
batch. -/
theorem C4_windowed_fetcher_witness :
    (fetch_windows fun _ => WindowOutcome.success []).attempted = reddit_windows ∧
    ∃ w ∈ reddit_windows,
      (fetch_windows fun _ => WindowOutcome.success []).posts =
        window_filtered (fun _ => WindowOutcome.success []) w ∧
      ∀ v ∈ reddit_windows,
        window_filtered_count (fun _ => WindowOutcome.success []) v ≤
          window_filtered_count (fun _ => WindowOutcome.success []) w :=
  (C4_windowed_fetcher (fun _ => WindowOutcome.success []) (by decide)).2 (by decide)

/-- C9 (amended): only a rate-limit or server-unavailable status
(429/502/503/504) aborts the window sequence; any other failure — including
the 404 not-found and 403 forbidden rejections — merely skips the window and
the search proceeds to the next, wider window. -/
theorem C9_rejection_amended (f : String × String → WindowOutcome)
    (w : String × String) (rest : List (String × String)) (best : List Post)
    (bw : String) (att : List (String × String)) (status : Option Int)
    (msg : String) (hfw : f w = .failure status msg) :
    (is_abort_status status = false →
      window_loop f (w :: rest) best bw att =
        window_loop f rest best bw (att ++ [w])) ∧
    (is_abort_status status = true →
      window_loop f (w :: rest) best bw att = ⟨[], "", some msg, att ++ [w]⟩) := by
  constructor <;> intro h <;> simp [window_loop, hfw, h]

/-- Witness: a 404 on the first window makes the loop continue with the two
remaining windows. -/
theorem C9_rejection_amended_witness :
    window_loop failing_first_window reddit_windows [] "" [] =
      window_loop failing_first_window [("8d", "12h"), ("8d", "0h")] [] ""
        [("8d", "36h")] :=
  (C9_rejection_amended failing_first_window ("8d", "36h")
    [("8d", "12h"), ("8d", "0h")] [] "" [] (some 404)
    "Subreddit not found. Check spelling." (by decide)).1 (by decide)

/-! ### Dictionary lemmas for the author-count model -/

theorem dict_get_set_self : ∀ (d : List (String × Nat)) (k : String) (v : Nat),
    dict_get (dict_set d k v) k = v
  | [], k, v => by simp [dict_get, dict_set]
  | (k', v') :: rest, k, v => by
    by_cases h : k' = k
    · simp [dict_get, dict_set, h]
    · simp only [dict_set, if_neg h, dict_get]
      exact dict_get_set_self rest k v

theorem dict_get_set_ne : ∀ (d : List (String × Nat)) (k : String) (v : Nat)
    (a : String), a ≠ k → dict_get (dict_set d k v) a = dict_get d a
  | [], k, v, a, ha => by
    simp only [dict_set, dict_get]
    rw [if_neg (Ne.symm ha)]
  | (k', v') :: rest, k, v, a, ha => by
    by_cases h : k' = k
    · subst h
      simp only [dict_set, if_pos rfl, dict_get]
      rw [if_neg (Ne.symm ha), if_neg (Ne.symm ha)]
    · simp only [dict_set, if_neg h, dict_get]
      by_cases h' : k' = a
      · rw [if_pos h', if_pos h']
      · rw [if_neg h', if_neg h']
        exact dict_get_set_ne rest k v a ha

/-! ### Replacement-loop lemmas -/

/-- A successful replacement rewrites exactly one non-recent occurrence. -/
theorem replaceLastNonrecent_eq_some (tda : Int) (q : Post) :
    ∀ (sel sel' : List Post), replaceLastNonrecent tda q sel = some sel' →
      ∃ l₁ x l₂, sel = l₁ ++ x :: l₂ ∧ x.created_utc ≤ tda ∧ sel' = l₁ ++ q :: l₂
  | [], _, h => by simp [replaceLastNonrecent] at h
  | x :: xs, sel', h => by
    rw [replaceLastNonrecent] at h
    cases hrec : replaceLastNonrecent tda q xs with
    | some xs' =>
      rw [hrec] at h
      obtain ⟨l₁, y, l₂, hxs, hy, hxs'⟩ :=
        replaceLastNonrecent_eq_some tda q xs xs' hrec
      refine ⟨x :: l₁, y, l₂, by simp [hxs], hy, ?_⟩
      have hsel' : sel' = x :: xs' := by
        have := Option.some.inj h
        exact this.symm
      simp [hsel', hxs']
    | none =>
      rw [hrec] at h
      by_cases hx : x.created_utc ≤ tda
      · rw [if_pos hx] at h
        exact ⟨[], x, xs, rfl, hx, by simpa using (Option.some.inj h).symm⟩
      · rw [if_neg hx] at h
        exact absurd h (by simp)

/-- A failed replacement means every selected post is recent. -/
theorem replaceLastNonrecent_eq_none (tda : Int) (q : Post) :
    ∀ (sel : List Post), replaceLastNonrecent tda q sel = none →
      ∀ x ∈ sel, ¬ (x.created_utc ≤ tda)
  | [], _, x, hx => by simp at hx
  | y :: ys, h, x, hx => by
    rw [replaceLastNonrecent] at h
    cases hrec : replaceLastNonrecent tda q ys with
    | some ys' => rw [hrec] at h; exact absurd h (by simp)
    | none =>
      rw [hrec] at h
      by_cases hy : y.created_utc ≤ tda
      · rw [if_pos hy] at h; exact absurd h (by simp)
      · rw [if_neg hy] at h
        rcases List.mem_cons.mp hx with rfl | hx'
        · exact hy
        · exact replaceLastNonrecent_eq_none tda q ys hrec x hx'

/-! ### Multiset bounds through the two passes -/

/-- Occurrences in `selected` and `deferred_recent` together never exceed
what the state held plus what the pass consumed. -/
theorem pass1_countP_le (tda : Int) (Q : Post → Bool) :
    ∀ (posts : List Post) (st : Pass1State),
      ((pass1 tda posts st).selected.countP Q) +
          ((pass1 tda posts st).deferred_recent.countP Q) ≤
        st.selected.countP Q + st.deferred_recent.countP Q + posts.countP Q
  | [], st => by simp [pass1]
  | post :: rest, st => by
    rw [pass1]
    by_cases hfull : st.selected.length ≥ MAX_POSTS_FINAL
    · rw [if_pos hfull]
      exact Nat.le_add_right _ _
    · rw [if_neg hfull]
      by_cases hauth : dict_get st.author_count post.author ≥ MAX_POSTS_PER_AUTHOR
      · rw [if_pos hauth]
        refine le_trans (pass1_countP_le tda Q rest _) ?_
        by_cases hr : post.created_utc > tda <;> by_cases hq : Q post <;>
          simp [hr, hq, List.countP_append, List.countP_cons] <;> try omega
      · rw [if_neg hauth]
        by_cases hnc : post.num_comments = 0 ∧ st.no_comment_count ≥ MAX_NO_COMMENT_POSTS
        · rw [if_pos hnc]
          refine le_trans (pass1_countP_le tda Q rest _) ?_
          by_cases hr : post.created_utc > tda <;> by_cases hq : Q post <;>
            simp [hr, hq, List.countP_append, List.countP_cons] <;> try omega
        · rw [if_neg hnc]
          refine le_trans (pass1_countP_le tda Q rest _) ?_
          by_cases hq : Q post <;>
            simp [hq, List.countP_append, List.countP_cons] <;> try omega

/-- The backfill result draws every occurrence from `selected` or from the
deferred list. -/
theorem pass2_countP_le (tda : Int) (Q : Post → Bool) :
    ∀ (deferred sel : List Post) (recent : Nat),
      ((pass2 tda deferred sel recent).1.countP Q) ≤
        sel.countP Q + deferred.countP Q
  | [], sel, recent => by simp [pass2]
  | q :: rest, sel, recent => by
    rw [pass2]
    by_cases h20 : recent ≥ MIN_RECENT_POSTS
    · rw [if_pos h20]
      exact Nat.le_add_right _ _
    · rw [if_neg h20]
      by_cases hlen : sel.length ≥ MAX_POSTS_FINAL
      · rw [if_pos hlen]
        cases hrep : replaceLastNonrecent tda q sel with
        | some sel' =>
          obtain ⟨l₁, x, l₂, hsel, _, hsel'⟩ :=
            replaceLastNonrecent_eq_some tda q sel sel' hrep
          have ih := pass2_countP_le tda Q rest sel' (recent + 1)
          subst hsel hsel'
          simp only [List.countP_append, List.countP_cons, List.countP_nil] at ih ⊢
          omega
        | none =>
          have ih := pass2_countP_le tda Q rest sel recent
          simp only [List.countP_cons, List.countP_nil] at ih ⊢
          omega
      · rw [if_neg hlen]
        have ih := pass2_countP_le tda Q rest (sel ++ [q]) (recent + 1)
        simp only [List.countP_append, List.countP_cons, List.countP_nil] at ih ⊢
        omega

/-- The backfill adds at most `MIN_RECENT_POSTS - recent` occurrences of any
predicate to the selection. -/
theorem pass2_countP_growth (tda : Int) (Q : Post → Bool) :
    ∀ (deferred sel : List Post) (recent : Nat),
      ((pass2 tda deferred sel recent).1.countP Q) ≤
        sel.countP Q + (MIN_RECENT_POSTS - recent)
  | [], sel, recent => by simp [pass2]
  | q :: rest, sel, recent => by
    rw [pass2]
    by_cases h20 : recent ≥ MIN_RECENT_POSTS
    · rw [if_pos h20]
      exact Nat.le_add_right _ _
    · rw [if_neg h20]
      by_cases hlen : sel.length ≥ MAX_POSTS_FINAL
      · rw [if_pos hlen]
        cases hrep : replaceLastNonrecent tda q sel with
        | some sel' =>
          obtain ⟨l₁, x, l₂, hsel, _, hsel'⟩ :=
            replaceLastNonrecent_eq_some tda q sel sel' hrep
          have ih := pass2_countP_growth tda Q rest sel' (recent + 1)
          subst hsel hsel'
          simp only [List.countP_append, List.countP_cons, List.countP_nil,
            MIN_RECENT_POSTS] at h20 ih ⊢
          cases hq : Q q <;> cases hx : Q x <;> simp [hq, hx] at ih ⊢ <;> try omega
        | none =>
          have ih := pass2_countP_growth tda Q rest sel recent
          simp only [MIN_RECENT_POSTS] at h20 ih ⊢
          omega
      · rw [if_neg hlen]
        have ih := pass2_countP_growth tda Q rest (sel ++ [q]) (recent + 1)
        simp only [List.countP_append, List.countP_cons, List.countP_nil,
          MIN_RECENT_POSTS] at h20 ih ⊢
        cases hq : Q q <;> simp [hq] at ih ⊢ <;> try omega

/-! ### Cap invariant of the greedy pass -/

theorem pass1_caps (tda : Int) :
    ∀ (posts : List Post) (st : Pass1State), DictInv st →
      DictInv (pass1 tda posts st)
  | [], st, h => by rw [pass1]; exact h
  | post :: rest, st, h => by
    obtain ⟨hdict, hnc, hcap, hnccap⟩ := h
    rw [pass1]
    by_cases hfull : st.selected.length ≥ MAX_POSTS_FINAL
    · rw [if_pos hfull]
      exact ⟨hdict, hnc, hcap, hnccap⟩
    · rw [if_neg hfull]
      by_cases hauth : dict_get st.author_count post.author ≥ MAX_POSTS_PER_AUTHOR
      · rw [if_pos hauth]
        exact pass1_caps tda rest _ ⟨hdict, hnc, hcap, hnccap⟩
      · rw [if_neg hauth]
        by_cases hnc0 : post.num_comments = 0 ∧ st.no_comment_count ≥ MAX_NO_COMMENT_POSTS
        · rw [if_pos hnc0]
          exact pass1_caps tda rest _ ⟨hdict, hnc, hcap, hnccap⟩
        · rw [if_neg hnc0]
          refine pass1_caps tda rest _ ⟨?_, ?_, ?_, ?_⟩
          · intro a
            dsimp only
            by_cases ha : a = post.author
            · subst ha
              rw [dict_get_set_self, hdict post.author]
              simp [List.countP_append, List.countP_cons]
            · rw [dict_get_set_ne _ _ _ _ ha, hdict a]
              have hne : ¬ (post.author = a) := fun hc => ha hc.symm
              simp [List.countP_append, List.countP_cons, hne]
          · dsimp only
            by_cases h0 : post.num_comments = 0
            · rw [if_pos h0, hnc]
              simp [List.countP_append, List.countP_cons, h0]
            · rw [if_neg h0, hnc]
              simp [List.countP_append, List.countP_cons, h0]
          · intro a
            dsimp only
            by_cases ha : a = post.author
            · subst ha
              rw [dict_get_set_self]
              omega
            · rw [dict_get_set_ne _ _ _ _ ha]
              exact hcap a
          · dsimp only
            by_cases h0 : post.num_comments = 0
            · rw [if_pos h0]
              omega
            · rw [if_neg h0]
              exact hnccap

/-! ### C1 — the diversity caps, exact for the greedy pass, soft overall -/

/-- The initial pass-1 state satisfies the cap invariant. -/
theorem pass1_init_DictInv : DictInv pass1_init := by
  refine ⟨fun a => rfl, rfl, fun a => ?_, ?_⟩ <;> simp [pass1_init, dict_get]

/-- C1 (amended): the greedy first pass enforces both diversity caps exactly
(at most 3 posts per author, at most 20 zero-reply posts, on any input); the
second-pass recency backfill re-admits deferred posts without re-checking the
caps, but adds at most `MIN_RECENT_POSTS` = 20 posts, so the final output
holds at most 3+20 posts per author value and at most 20+20 zero-reply
posts. -/
theorem C1_caps_amended (rank : Post → ℚ) (now : Int) (posts posts' : List Post)
    (a : String) :
    (((pass1 (now - 3 * 24 * 60 * 60) posts' pass1_init).selected.countP
        fun p => decide (p.author = a)) ≤ MAX_POSTS_PER_AUTHOR) ∧
    (((pass1 (now - 3 * 24 * 60 * 60) posts' pass1_init).selected.countP
        fun p => decide (p.num_comments = 0)) ≤ MAX_NO_COMMENT_POSTS) ∧
    (((apply_diversity_and_recency rank now posts).countP
        fun p => decide (p.author = a)) ≤
      MAX_POSTS_PER_AUTHOR + MIN_RECENT_POSTS) ∧
    (((apply_diversity_and_recency rank now posts).countP
        fun p => decide (p.num_comments = 0)) ≤
      MAX_NO_COMMENT_POSTS + MIN_RECENT_POSTS) := by
  have hcap : ∀ l : List Post, ∀ b : String,
      (((pass1 (now - 3 * 24 * 60 * 60) l pass1_init).selected.countP
          fun p => decide (p.author = b)) ≤ MAX_POSTS_PER_AUTHOR) ∧
      (((pass1 (now - 3 * 24 * 60 * 60) l pass1_init).selected.countP
          fun p => decide (p.num_comments = 0)) ≤ MAX_NO_COMMENT_POSTS) := by
    intro l b
    obtain ⟨hdict, hnc, hcap3, hcap20⟩ :=
      pass1_caps (now - 3 * 24 * 60 * 60) l pass1_init pass1_init_DictInv
    exact ⟨hdict b ▸ hcap3 b, hnc ▸ hcap20⟩
  have hout : ∀ Q : Post → Bool,
      ((apply_diversity_and_recency rank now posts).countP Q) ≤
        ((pass1 (now - 3 * 24 * 60 * 60)
            (posts.mergeSort fun a b => decide (rank b ≤ rank a))
            pass1_init).selected.countP Q) + MIN_RECENT_POSTS := by
    intro Q
    simp only [apply_diversity_and_recency]
    refine le_trans ((List.take_sublist _ _).countP_le _) ?_
    split
    · refine le_trans (pass2_countP_growth _ Q _ _ _) ?_
      have h1 : MIN_RECENT_POSTS -
          (pass1 (now - 3 * 24 * 60 * 60)
            (posts.mergeSort fun a b => decide (rank b ≤ rank a))
            pass1_init).recent_in_selection ≤ MIN_RECENT_POSTS :=
        Nat.sub_le _ _
      omega
    · omega
  refine ⟨(hcap posts' a).1, (hcap posts' a).2, ?_, ?_⟩
  · refine le_trans (hout _) ?_
    have := (hcap (posts.mergeSort fun a b => decide (rank b ≤ rank a)) a).1
    omega
  · refine le_trans (hout _) ?_
    have := (hcap (posts.mergeSort fun a b => decide (rank b ≤ rank a)) a).2
    omega

/-- C1 counterexample: four recent posts by the author `"alice"` (all with
replies): the greedy pass admits three, defers the fourth for recency, and
the second pass re-admits it — the output carries 4 > 3 posts by one
author. -/
theorem C1_counterexample :
    ((apply_diversity_and_recency cex1_rank 1000000 cex1_posts).countP
        fun p => decide (p.author = "alice")) = 4 ∧
    ¬ ((4 : Nat) ≤ MAX_POSTS_PER_AUTHOR) := by
  constructor
  · have hpw1 : List.Pairwise
        (fun a b => decide (cex1_rank b ≤ cex1_rank a) = true) cex1_posts := by
      decide
    have hsorted : cex1_posts.mergeSort
        (fun a b => decide (cex1_rank b ≤ cex1_rank a)) = cex1_posts :=
      List.mergeSort_of_sorted hpw1
    have hst : pass1 (1000000 - 3 * 24 * 60 * 60) cex1_posts pass1_init =
        { selected := [cex1_post 1, cex1_post 2, cex1_post 3],
          author_count := [("alice", 3)], no_comment_count := 0,
          recent_in_selection := 3, deferred_recent := [cex1_post 4] } := by
      decide
    simp only [apply_diversity_and_recency]
    rw [hsorted, hst]
    dsimp only
    rw [List.mergeSort_singleton]
    decide
  · decide

/-! ### C2 — the recency quota -/

/-- The recency invariant is preserved by the greedy pass. -/
theorem pass1_recinv (tda : Int) :
    ∀ (posts : List Post) (st : Pass1State), RecInv tda st →
      RecInv tda (pass1 tda posts st)
  | [], st, h => by rw [pass1]; exact h
  | post :: rest, st, h => by
    obtain ⟨hrc, hlen, hdef⟩ := h
    rw [pass1]
    by_cases hfull : st.selected.length ≥ MAX_POSTS_FINAL
    · rw [if_pos hfull]; exact ⟨hrc, hlen, hdef⟩
    · rw [if_neg hfull]
      have hdefer : ∀ p ∈ (if post.created_utc > tda then
          st.deferred_recent ++ [post] else st.deferred_recent),
          recentP tda p = true := by
        by_cases hr : post.created_utc > tda
        · rw [if_pos hr]
          intro p hp
          rcases List.mem_append.mp hp with hp | hp
          · exact hdef p hp
          · rw [List.mem_singleton] at hp
            subst hp
            simp [recentP, hr]
        · rw [if_neg hr]; exact hdef
      by_cases hauth : dict_get st.author_count post.author ≥ MAX_POSTS_PER_AUTHOR
      · rw [if_pos hauth]
        exact pass1_recinv tda rest _ ⟨hrc, hlen, hdefer⟩
      · rw [if_neg hauth]
        by_cases hnc0 : post.num_comments = 0 ∧ st.no_comment_count ≥ MAX_NO_COMMENT_POSTS
        · rw [if_pos hnc0]
          exact pass1_recinv tda rest _ ⟨hrc, hlen, hdefer⟩
        · rw [if_neg hnc0]
          refine pass1_recinv tda rest _ ⟨?_, ?_, hdef⟩
          · dsimp only
            by_cases hr : post.created_utc > tda
            · rw [if_pos hr, hrc]
              simp [List.countP_append, List.countP_cons, recentP, hr]
            · rw [if_neg hr, hrc]
              simp [List.countP_append, List.countP_cons, recentP, hr]
          · dsimp only
            simp only [List.length_append, List.length_cons, List.length_nil]
            omega

/-- A full selection makes the greedy pass a no-op. -/
theorem pass1_of_full (tda : Int) :
    ∀ (posts : List Post) (st : Pass1State),
      st.selected.length ≥ MAX_POSTS_FINAL → pass1 tda posts st = st
  | [], _, _ => by rw [pass1]
  | _ :: _, _, h => by rw [pass1, if_pos h]

/-- The greedy pass processes a concatenation sequentially. -/
theorem pass1_append (tda : Int) :
    ∀ (a b : List Post) (st : Pass1State),
      pass1 tda (a ++ b) st = pass1 tda b (pass1 tda a st)
  | [], b, st => by rw [List.nil_append, pass1]
  | post :: a', b, st => by
    by_cases hfull : st.selected.length ≥ MAX_POSTS_FINAL
    · rw [List.cons_append, pass1, if_pos hfull, pass1, if_pos hfull,
        pass1_of_full tda b st hfull]
    · rw [List.cons_append, pass1, if_neg hfull, pass1, if_neg hfull]
      by_cases hauth : dict_get st.author_count post.author ≥ MAX_POSTS_PER_AUTHOR
      · rw [if_pos hauth, if_pos hauth]
        exact pass1_append tda a' b _
      · rw [if_neg hauth, if_neg hauth]
        by_cases hnc0 : post.num_comments = 0 ∧ st.no_comment_count ≥ MAX_NO_COMMENT_POSTS
        · rw [if_pos hnc0, if_pos hnc0]
          exact pass1_append tda a' b _
        · rw [if_neg hnc0, if_neg hnc0]
          exact pass1_append tda a' b _

/-- Non-recent posts change neither the recent counter nor the deferred
list. -/
theorem pass1_phase_old (tda : Int) :
    ∀ (posts : List Post), (∀ p ∈ posts, recentP tda p = false) →
      ∀ st : Pass1State,
        (pass1 tda posts st).recent_in_selection = st.recent_in_selection ∧
        (pass1 tda posts st).deferred_recent = st.deferred_recent
  | [], _, st => by rw [pass1]; exact ⟨rfl, rfl⟩
  | post :: rest, hold, st => by
    have hp : recentP tda post = false := hold post (by simp)
    have hrest : ∀ p ∈ rest, recentP tda p = false :=
      fun p hp' => hold p (by simp [hp'])
    have hnr : ¬ (post.created_utc > tda) := by
      simpa [recentP] using hp
    rw [pass1]
    by_cases hfull : st.selected.length ≥ MAX_POSTS_FINAL
    · rw [if_pos hfull]; exact ⟨rfl, rfl⟩
    · rw [if_neg hfull]
      by_cases hauth : dict_get st.author_count post.author ≥ MAX_POSTS_PER_AUTHOR
      · rw [if_pos hauth, if_neg hnr]
        exact pass1_phase_old tda rest hrest _
      · rw [if_neg hauth]
        by_cases hnc0 : post.num_comments = 0 ∧ st.no_comment_count ≥ MAX_NO_COMMENT_POSTS
        · rw [if_pos hnc0, if_neg hnr]
          exact pass1_phase_old tda rest hrest _
        · rw [if_neg hnc0, if_neg hnr]
          exact pass1_phase_old tda rest hrest _

/-- Processing recent posts only: every examined post is admitted or
deferred (or the pass broke on a selection that is entirely recent), so at
the end the recent counter plus the deferred backlog covers the quota. -/
theorem pass1_phase_recent (tda : Int) :
    ∀ (posts : List Post), (∀ p ∈ posts, recentP tda p = true) →
      ∀ st : Pass1State, RecInv tda st →
        (∀ p ∈ st.selected, recentP tda p = true) →
        MIN_RECENT_POSTS ≤
          st.recent_in_selection + st.deferred_recent.length + posts.length →
        MIN_RECENT_POSTS ≤ (pass1 tda posts st).recent_in_selection +
          (pass1 tda posts st).deferred_recent.length
  | [], _, st, _, _, hbound => by
    rw [pass1]
    simpa using hbound
  | post :: rest, hrec, st, hinv, hsel, hbound => by
    obtain ⟨hrc, hlen, hdef⟩ := hinv
    have hp : recentP tda post = true := hrec post (by simp)
    have hr : post.created_utc > tda := by simpa [recentP] using hp
    have hrest : ∀ p ∈ rest, recentP tda p = true :=
      fun p hp' => hrec p (by simp [hp'])
    rw [pass1]
    by_cases hfull : st.selected.length ≥ MAX_POSTS_FINAL
    · rw [if_pos hfull]
      have hcount : st.selected.countP (recentP tda) = st.selected.length :=
        List.countP_eq_length.mpr fun p hp' => hsel p hp'
      rw [hrc, hcount]
      simp only [MIN_RECENT_POSTS, MAX_POSTS_FINAL] at hfull ⊢
      omega
    · rw [if_neg hfull]
      have hdefer : ∀ p ∈ st.deferred_recent ++ [post], recentP tda p = true := by
        intro p hp'
        rcases List.mem_append.mp hp' with h | h
        · exact hdef p h
        · rw [List.mem_singleton] at h
          subst h
          exact hp
      by_cases hauth : dict_get st.author_count post.author ≥ MAX_POSTS_PER_AUTHOR
      · rw [if_pos hauth, if_pos hr]
        refine pass1_phase_recent tda rest hrest _ ⟨hrc, hlen, hdefer⟩ hsel ?_
        dsimp only
        simp only [List.length_append, List.length_cons, List.length_nil] at hbound ⊢
        omega
      · rw [if_neg hauth]
        by_cases hnc0 : post.num_comments = 0 ∧ st.no_comment_count ≥ MAX_NO_COMMENT_POSTS
        · rw [if_pos hnc0, if_pos hr]
          refine pass1_phase_recent tda rest hrest _ ⟨hrc, hlen, hdefer⟩ hsel ?_
          dsimp only
          simp only [List.length_append, List.length_cons, List.length_nil] at hbound ⊢
          omega
        · rw [if_neg hnc0]
          refine pass1_phase_recent tda rest hrest _ ⟨?_, ?_, hdef⟩ ?_ ?_
          · dsimp only
            rw [if_pos hr, hrc]
            simp [List.countP_append, List.countP_cons, hp]
          · dsimp only
            simp only [List.length_append, List.length_cons, List.length_nil]
            omega
          · intro p hp'
            rcases List.mem_append.mp hp' with h | h
            · exact hsel p h
            · rw [List.mem_singleton] at h
              subst h
              exact hp
          · dsimp only
            rw [if_pos hr]
            simp only [List.length_cons] at hbound
            omega

/-- A list that is pairwise "recent posts never follow non-recent ones"
splits into a recent part followed by a non-recent part. -/
theorem pairwise_split {α : Type} (Q : α → Bool) :
    ∀ (l : List α), l.Pairwise (fun x y => Q y = true → Q x = true) →
      ∃ l1 l2, l = l1 ++ l2 ∧ (∀ x ∈ l1, Q x = true) ∧ ∀ x ∈ l2, Q x = false
  | [], _ => ⟨[], [], rfl, by simp, by simp⟩
  | x :: xs, h => by
    obtain ⟨hx, hxs⟩ := List.pairwise_cons.mp h
    obtain ⟨l1, l2, heq, h1, h2⟩ := pairwise_split Q xs hxs
    by_cases hQ : Q x = true
    · refine ⟨x :: l1, l2, by simp [heq], ?_, h2⟩
      intro y hy
      rcases List.mem_cons.mp hy with rfl | hy'
      · exact hQ
      · exact h1 y hy'
    · refine ⟨[], x :: xs, rfl, by simp, ?_⟩
      intro y hy
      rcases List.mem_cons.mp hy with rfl | hy'
      · simpa using hQ
      · by_cases hy2 : Q y = true
        · exact absurd (hx y hy' hy2) hQ
        · simpa using hy2

/-- The backfill pass: the recent counter stays the exact recent count of the
selection, the selection stays within the global cap, and the counter reaches
`min 20 (recent + deferred)`. -/
theorem pass2_recency (tda : Int) :
    ∀ (deferred sel : List Post) (recent : Nat),
      recent = sel.countP (recentP tda) →
      sel.length ≤ MAX_POSTS_FINAL →
      (∀ p ∈ deferred, recentP tda p = true) →
      (pass2 tda deferred sel recent).2 =
          (pass2 tda deferred sel recent).1.countP (recentP tda) ∧
      (pass2 tda deferred sel recent).1.length ≤ MAX_POSTS_FINAL ∧
      min MIN_RECENT_POSTS (recent + deferred.length) ≤
        (pass2 tda deferred sel recent).2
  | [], sel, recent, hrc, hlen, _ => by
    rw [pass2]
    refine ⟨hrc, hlen, ?_⟩
    simp only [List.length_nil, Nat.add_zero]
    exact Nat.min_le_right _ _
  | q :: rest, sel, recent, hrc, hlen, hdefr => by
    have hq : recentP tda q = true := hdefr q (by simp)
    have hrest : ∀ p ∈ rest, recentP tda p = true :=
      fun p hp => hdefr p (by simp [hp])
    rw [pass2]
    by_cases h20 : recent ≥ MIN_RECENT_POSTS
    · rw [if_pos h20]
      exact ⟨hrc, hlen, le_trans (Nat.min_le_left _ _) h20⟩
    · rw [if_neg h20]
      by_cases hfull : sel.length ≥ MAX_POSTS_FINAL
      · rw [if_pos hfull]
        have hex : ∃ x ∈ sel, x.created_utc ≤ tda := by
          by_contra hcon
          push_neg at hcon
          have hall : ∀ p ∈ sel, recentP tda p = true := by
            intro p hp
            have := hcon p hp
            simp only [recentP, decide_eq_true_eq]
            omega
          have hcl : sel.countP (recentP tda) = sel.length :=
            List.countP_eq_length.mpr hall
          rw [hrc, hcl] at h20
          simp only [MIN_RECENT_POSTS] at h20
          simp only [MAX_POSTS_FINAL] at hfull
          omega
        cases hrep : replaceLastNonrecent tda q sel with
        | none =>
          obtain ⟨x, hx, hxle⟩ := hex
          exact absurd hxle (replaceLastNonrecent_eq_none tda q sel hrep x hx)
        | some sel' =>
          obtain ⟨l₁, x, l₂, hsel, hxle, hsel'⟩ :=
            replaceLastNonrecent_eq_some tda q sel sel' hrep
          subst hsel hsel'
          have hxrec : recentP tda x = false := by
            simp only [recentP, decide_eq_false_iff_not]
            omega
          have hcount' : (l₁ ++ q :: l₂).countP (recentP tda) = recent + 1 := by
            rw [hrc]
            simp [List.countP_append, List.countP_cons, hq, hxrec]
            omega
          have hlen' : (l₁ ++ q :: l₂).length ≤ MAX_POSTS_FINAL := by
            simp only [List.length_append, List.length_cons] at hlen ⊢
            omega
          have ih := pass2_recency tda rest (l₁ ++ q :: l₂) (recent + 1)
            hcount'.symm hlen' hrest
          simp only []
          refine ⟨ih.1, ih.2.1, ?_⟩
          have := ih.2.2
          simp only [List.length_cons]
          omega
      · rw [if_neg hfull]
        have hcount' : (sel ++ [q]).countP (recentP tda) = recent + 1 := by
          rw [hrc]
          simp [List.countP_append, List.countP_cons, hq]
        have hlen' : (sel ++ [q]).length ≤ MAX_POSTS_FINAL := by
          simp only [List.length_append, List.length_cons, List.length_nil]
          omega
        have ih := pass2_recency tda rest (sel ++ [q]) (recent + 1)
          hcount'.symm hlen' hrest
        refine ⟨ih.1, ih.2.1, ?_⟩
        have := ih.2.2
        simp only [List.length_cons]
        omega

/-- C2 (amended): the recency quota is guaranteed when the input's recent
posts all outrank its older posts (and at least 20 recent posts exist);
without that rank separation the greedy pass can fill all 100 slots with
older posts and break before even deferring a recent one, so the
unconditional claim fails (see the counterexample). -/
theorem C2_recency_amended (rank : Post → ℚ) (now : Int) (posts : List Post)
    (hcount : MIN_RECENT_POSTS ≤ posts.countP (recentP (now - 3 * 24 * 60 * 60)))
    (hsep : ∀ p ∈ posts, ∀ q ∈ posts,
      recentP (now - 3 * 24 * 60 * 60) p = true →
      recentP (now - 3 * 24 * 60 * 60) q = false → rank q < rank p) :
    MIN_RECENT_POSTS ≤
      (apply_diversity_and_recency rank now posts).countP
        (recentP (now - 3 * 24 * 60 * 60)) := by
  have htrans : ∀ a b c : Post, (fun a b => decide (rank b ≤ rank a)) a b = true →
      (fun a b => decide (rank b ≤ rank a)) b c = true →
      (fun a b => decide (rank b ≤ rank a)) a c = true := by
    intro a b c h1 h2
    simp only [decide_eq_true_eq] at h1 h2 ⊢
    exact le_trans h2 h1
  have htotal : ∀ a b : Post,
      ((fun a b => decide (rank b ≤ rank a)) a b ||
        (fun a b => decide (rank b ≤ rank a)) b a) = true := by
    intro a b
    simp only [Bool.or_eq_true, decide_eq_true_eq]
    exact le_total _ _
  have hpw : (posts.mergeSort fun a b => decide (rank b ≤ rank a)).Pairwise
      (fun x y => recentP (now - 3 * 24 * 60 * 60) y = true →
        recentP (now - 3 * 24 * 60 * 60) x = true) := by
    refine (List.sorted_mergeSort htrans htotal posts).imp_of_mem ?_
    intro a b ha hb hle hby
    rw [List.mem_mergeSort] at ha hb
    by_contra hax
    have haf : recentP (now - 3 * 24 * 60 * 60) a = false :=
      Bool.not_eq_true _ ▸ (by simpa using hax)
    have := hsep b hb a ha hby haf
    simp only [decide_eq_true_eq] at hle
    exact absurd hle (not_le.mpr this)
  obtain ⟨l1, l2, heq, h1, h2⟩ := pairwise_split _ _ hpw
  have hperm : (posts.mergeSort fun a b => decide (rank b ≤ rank a)).countP
      (recentP (now - 3 * 24 * 60 * 60)) =
      posts.countP (recentP (now - 3 * 24 * 60 * 60)) :=
    (List.mergeSort_perm posts _).countP_eq _
  have hl1len : MIN_RECENT_POSTS ≤ l1.length := by
    have hc1 : l1.countP (recentP (now - 3 * 24 * 60 * 60)) = l1.length :=
      List.countP_eq_length.mpr h1
    have hc2 : l2.countP (recentP (now - 3 * 24 * 60 * 60)) = 0 :=
      List.countP_eq_zero.mpr fun a ha => by
        rw [h2 a ha]
        exact Bool.false_ne_true
    have := hperm
    rw [heq] at this
    simp only [List.countP_append, hc1, hc2, Nat.add_zero] at this
    omega
  set tda := now - 3 * 24 * 60 * 60 with htda
  have hstA : MIN_RECENT_POSTS ≤
      (pass1 tda l1 pass1_init).recent_in_selection +
        (pass1 tda l1 pass1_init).deferred_recent.length := by
    refine pass1_phase_recent tda l1 h1 pass1_init
      ⟨rfl, by simp [pass1_init], by simp [pass1_init]⟩ (by simp [pass1_init]) ?_
    simpa [pass1_init] using hl1len
  have hinvA : RecInv tda (pass1 tda l1 pass1_init) :=
    pass1_recinv tda l1 pass1_init
      ⟨rfl, by simp [pass1_init], by simp [pass1_init]⟩
  have hold := pass1_phase_old tda l2 h2 (pass1 tda l1 pass1_init)
  have hinv1 : RecInv tda (pass1 tda (l1 ++ l2) pass1_init) := by
    rw [pass1_append]
    exact pass1_recinv tda l2 _ hinvA
  have hst1 : MIN_RECENT_POSTS ≤
      (pass1 tda (l1 ++ l2) pass1_init).recent_in_selection +
        (pass1 tda (l1 ++ l2) pass1_init).deferred_recent.length := by
    rw [pass1_append, hold.1, hold.2]
    exact hstA
  simp only [apply_diversity_and_recency]
  rw [← htda, heq]
  obtain ⟨hrc1, hlen1, hdef1⟩ := hinv1
  split
  · next hcond =>
    have hdperm : ((pass1 tda (l1 ++ l2) pass1_init).deferred_recent.mergeSort
        fun a b => decide (b.created_utc ≤ a.created_utc)).length =
        (pass1 tda (l1 ++ l2) pass1_init).deferred_recent.length :=
      List.length_mergeSort _
    have hdall : ∀ p ∈ ((pass1 tda (l1 ++ l2) pass1_init).deferred_recent.mergeSort
        fun a b => decide (b.created_utc ≤ a.created_utc)),
        recentP tda p = true := by
      intro p hp
      rw [List.mem_mergeSort] at hp
      exact hdef1 p hp
    obtain ⟨hq1, hq2, hq3⟩ := pass2_recency tda _ _ _ hrc1 hlen1 hdall
    rw [List.take_of_length_le hq2, ← hq1]
    rw [hdperm] at hq3
    omega
  · next hcond =>
    rw [List.take_of_length_le hlen1, ← hrc1]
    rcases Decidable.not_and_iff_or_not.mp hcond with h | h
    · omega
    · have : (pass1 tda (l1 ++ l2) pass1_init).deferred_recent = [] := by
        by_contra hne
        exact h hne
      rw [this] at hst1
      simpa using hst1

/-- Witness for the amended recency claim: 20 recent posts by distinct
authors (no older post at all, so the separation hypothesis is vacuous); the
output retains all 20. -/
theorem C2_recency_amended_witness :
    MIN_RECENT_POSTS ≤
      ((apply_diversity_and_recency (fun _ => (0 : ℚ)) 1000000 wit2_posts).countP
        (recentP (1000000 - 3 * 24 * 60 * 60))) :=
  C2_recency_amended (fun _ => (0 : ℚ)) 1000000 wit2_posts (by decide) (by decide)

set_option maxRecDepth 16384 in
/-- C2 counterexample: 100 older posts (distinct authors, nonzero replies)
that all outrank 20 recent posts. The greedy pass fills all 100 slots with
the older posts and breaks before examining — hence before deferring — any
recent post, so the output contains 0 recent posts even though the input has
≥ 20 recent and ≥ 100 older posts. -/
theorem C2_counterexample :
    MIN_RECENT_POSTS ≤
      (cex2_posts.countP (recentP (1000000 - 3 * 24 * 60 * 60))) ∧
    100 ≤ (cex2_posts.countP fun p => !(recentP (1000000 - 3 * 24 * 60 * 60) p)) ∧
    ((apply_diversity_and_recency cex2_rank 1000000 cex2_posts).countP
        (recentP (1000000 - 3 * 24 * 60 * 60))) = 0 := by
  refine ⟨by decide, by decide, ?_⟩
  have hpw2 : List.Pairwise
      (fun a b => decide (cex2_rank b ≤ cex2_rank a) = true) cex2_posts := by
    decide
  have hsorted : cex2_posts.mergeSort
      (fun a b => decide (cex2_rank b ≤ cex2_rank a)) = cex2_posts :=
    List.mergeSort_of_sorted hpw2
  have hst : pass1 (1000000 - 3 * 24 * 60 * 60) cex2_posts pass1_init =
      { selected := (List.range 100).map cex2_old,
        author_count := (List.range 100).map fun i => ("a" ++ toString i, 1),
        no_comment_count := 0, recent_in_selection := 0,
        deferred_recent := [] } := by
    decide
  simp only [apply_diversity_and_recency]
  rw [hsorted, hst]
  dsimp only
  decide

/-! ### C10 — the selector output is a sub-multiset of its input -/

/-- C10: no post occurs more often in the selector's output than in its
input: every output post comes from the input and the two-pass
backfill/replacement never duplicates an item. -/
theorem C10_no_duplication (rank : Post → ℚ) (now : Int) (posts : List Post)
    (p : Post) :
    (apply_diversity_and_recency rank now posts).count p ≤ posts.count p := by
  rw [List.count_eq_countP, List.count_eq_countP]
  simp only [apply_diversity_and_recency]
  refine le_trans ((List.take_sublist _ _).countP_le _) ?_
  have hperm : ∀ Q : Post → Bool,
      ((posts.mergeSort fun a b => decide (rank b ≤ rank a)).countP Q) =
        posts.countP Q :=
    fun Q => (List.mergeSort_perm posts _).countP_eq Q
  have hp1 := pass1_countP_le (now - 3 * 24 * 60 * 60) (· == p)
    (posts.mergeSort fun a b => decide (rank b ≤ rank a)) pass1_init
  have e1 : pass1_init.selected.countP (· == p) = 0 := rfl
  have e2 : pass1_init.deferred_recent.countP (· == p) = 0 := rfl
  rw [e1, e2] at hp1
  split
  · have hp2 := pass2_countP_le (now - 3 * 24 * 60 * 60) (· == p)
      ((pass1 (now - 3 * 24 * 60 * 60)
          (posts.mergeSort fun a b => decide (rank b ≤ rank a))
          pass1_init).deferred_recent.mergeSort
        fun a b => decide (b.created_utc ≤ a.created_utc))
      (pass1 (now - 3 * 24 * 60 * 60)
          (posts.mergeSort fun a b => decide (rank b ≤ rank a))
          pass1_init).selected
      (pass1 (now - 3 * 24 * 60 * 60)
          (posts.mergeSort fun a b => decide (rank b ≤ rank a))
          pass1_init).recent_in_selection
    have hdef : (((pass1 (now - 3 * 24 * 60 * 60)
          (posts.mergeSort fun a b => decide (rank b ≤ rank a))
          pass1_init).deferred_recent.mergeSort
            fun a b => decide (b.created_utc ≤ a.created_utc)).countP (· == p)) =
        ((pass1 (now - 3 * 24 * 60 * 60)
          (posts.mergeSort fun a b => decide (rank b ≤ rank a))
          pass1_init).deferred_recent.countP (· == p)) :=
      (List.mergeSort_perm _ _).countP_eq _
    rw [hdef] at hp2
    rw [← hperm (· == p)]
    omega
  · rw [← hperm (· == p)]
    omega

/-! ### C8 — comment body truncation and redaction -/

/-- A user-mention match consumes at least 3 characters. -/
theorem match_user_mention_length (l r : List Char)
    (h : match_user_mention l = some r) : r.length + 3 ≤ l.length := by
  unfold match_user_mention at h
  split at h
  · split at h
    · next c cs _ =>
      have hd := (List.dropWhile_sublist (l := cs) is_username_char).length_le
      have := Option.some.inj h
      subst this
      simp only [List.length_cons]
      omega
    · exact absurd h (by simp)
  · split at h
    · next c cs _ =>
      have hd := (List.dropWhile_sublist (l := cs) is_username_char).length_le
      have := Option.some.inj h
      subst this
      simp only [List.length_cons]
      omega
    · exact absurd h (by simp)
  · exact absurd h (by simp)

/-- Redaction at most doubles the length: each match consumes `n ≥ 3`
characters and emits 6 ≤ 2·n. -/
theorem redact_aux_length_le :
    ∀ (fuel : Nat) (l : List Char), (redact_aux fuel l).length ≤ 2 * l.length := by
  intro fuel
  induction fuel with
  | zero =>
    intro l
    cases l <;> simp [redact_aux] <;> omega
  | succ n ih =>
    intro l
    cases l with
    | nil => simp [redact_aux]
    | cons c cs =>
      rw [redact_aux]
      cases hm : match_user_mention (c :: cs) with
      | some rest =>
        have h3 := match_user_mention_length (c :: cs) rest hm
        have h6 : ("[user]".data).length = 6 := rfl
        have hr := ih rest
        simp only [List.length_append, List.length_cons, h6] at *
        omega
      | none =>
        have hr := ih cs
        simp only [List.length_cons]
        omega

theorem redact_usernames_length (s : String) :
    (redact_usernames s).length ≤ 2 * s.length := by
  unfold redact_usernames
  exact redact_aux_length_le s.data.length s.data

theorem truncate_comment_body_length (b : String) :
    (truncate_comment_body b).length ≤ 403 := by
  unfold truncate_comment_body
  split
  · next h =>
    rw [String.length_append]
    have h1 : (String.mk (b.data.take COMMENT_BODY_TRUNCATE)).length =
        min COMMENT_BODY_TRUNCATE b.data.length := List.length_take _ _
    have h2 : ("..." : String).length = 3 := rfl
    rw [h1, h2]
    simp only [COMMENT_BODY_TRUNCATE]
    omega
  · next h =>
    simp only [COMMENT_BODY_TRUNCATE, Nat.not_lt] at h
    omega

/-- C8 (amended): the 403-character bound (400 + ellipsis) holds for the
truncated body *before* user-mention redaction; redaction replaces each
mention (at least 3 characters) by the 6-character placeholder and can
lengthen the body, so the final returned body is only guaranteed to be at
most 2·403 = 806 characters. -/
theorem C8_truncation_amended :
    (∀ b : String, (truncate_comment_body b).length ≤ 403) ∧
    (∀ (comments : List Comment) (mc : Nat) (sc : SelectedComment),
      sc ∈ select_best_comments comments mc → sc.body.length ≤ 806) := by
  constructor
  · exact truncate_comment_body_length
  · intro comments mc sc hsc
    simp only [select_best_comments] at hsc
    obtain ⟨c, _, rfl⟩ := List.mem_map.mp hsc
    have h1 := redact_usernames_length (truncate_comment_body c.body)
    have h2 := truncate_comment_body_length c.body
    dsimp only
    omega

/-- Witness: a single short comment passes through with its body bounded. -/
theorem C8_truncation_amended_witness :
    (truncate_comment_body "").length ≤ 403 ∧
    ({ id := "c1", body := "", score := 5 } : SelectedComment).body.length ≤ 806 := by
  refine ⟨C8_truncation_amended.1 "", ?_⟩
  refine C8_truncation_amended.2 [wit8_comment] MAX_COMMENTS_PER_POST _ ?_
  have heval : select_best_comments [wit8_comment] MAX_COMMENTS_PER_POST =
      [{ id := "c1", body := "", score := 5 }] := by
    simp only [select_best_comments]
    rw [List.mergeSort_singleton]
    rfl
  rw [heval]
  exact List.mem_singleton.mpr rfl

set_option maxRecDepth 16384 in
/-- C8 counterexample: a comment whose 232-character body is 58 mentions
`u/a` separated by dots; no truncation applies, yet redaction expands each
3-character mention to the 6-character `[user]` placeholder, producing a
406-character body — above the claimed 403 bound. -/
theorem C8_counterexample :
    ((select_best_comments [cex8_comment] MAX_COMMENTS_PER_POST).map
        fun sc => sc.body.length) = [406] ∧
    ¬ ((406 : Nat) ≤ 403) := by
  constructor
  · simp only [select_best_comments]
    rw [List.mergeSort_singleton]
    decide
  · decide

/-- C9 counterexample: after a 404 (not-found) on the first window, the
fetcher still attempts both wider windows — the claim that no further window
is attempted after a not-found rejection is false. -/
theorem C9_counterexample :
    failing_first_window ("8d", "36h") =
      WindowOutcome.failure (some 404) "Subreddit not found. Check spelling." ∧
    (fetch_windows failing_first_window).attempted = reddit_windows ∧
    reddit_windows ≠ [("8d", "36h")] := by
  refine ⟨by decide, by decide, by decide⟩

end GameAnalyzer
